import Mathlib

/-!
Verification of the AiIngredientScanner mobile client and analysis pipeline
against its specification.  The TypeScript sources are embedded shallowly:
pure helper functions become Lean functions over `String` / `List Char`,
asynchronous HTTP calls are modelled by passing the outcome of the request
as an explicit argument, and JavaScript `throw` becomes `Except`.
-/

namespace AiIngredientScanner

/-! ## Data model (src/mobile/src/types.ts)

The shapes of `IngredientDetail` and `AnalysisResponse` from the mobile
type definitions; JS `number` is modelled as `ℚ`, optional fields as
`Option`. -/

structure IngredientDetail where
  name : String
  purpose : String
  safety_score : ℚ
  risk_level : String
  concerns : String
  recommendation : String
  origin : String
  category : String
  allergy_risk : String
  is_allergen_match : Bool
  alternatives : List String
deriving DecidableEq, Repr

structure AnalysisResponse where
  success : Bool
  product_name : String
  overall_risk : String
  average_safety_score : ℚ
  summary : String
  allergen_warnings : List String
  ingredients : List IngredientDetail
  execution_time : ℚ
  error : Option String
deriving DecidableEq, Repr

inductive SkinType where
  | normal | dry | oily | combination | sensitive
deriving DecidableEq, Repr

inductive ExpertiseLevel where
  | beginner | expert
deriving DecidableEq, Repr

inductive ThemeMode where
  | light | dark
deriving DecidableEq, Repr

structure UserProfile where
  allergies : List String
  skinType : SkinType
  expertise : ExpertiseLevel
deriving DecidableEq, Repr

/-- JS `String.prototype.toLowerCase`, modelled character by character
(the risk strings of the section 6 contract are ASCII). -/
def toLowerStr (s : String) : String := String.mk (s.data.map Char.toLower)

/-! ## SafetyBar (src/mobile/src/components/SafetyBar.tsx)

`getColor` picks the fill colour of the safety bar from the 1-10 score. -/

namespace SafetyBar

def getColor (rating : ℤ) : String :=
  if rating ≤ 3 then "#dc3545"
  else if rating ≤ 6 then "#fd7e14"
  else "#28a745"

end SafetyBar

/-! ## ResultsHeader (src/mobile/src/components/ResultsHeader.tsx)

`getRiskConfig` switches on the lowercased risk string and returns a
label/colour configuration, with an UNKNOWN default branch. -/

structure RiskConfig where
  label : String
  color : String
  bgColor : String
  icon : String
deriving DecidableEq, Repr

def lowRiskConfig : RiskConfig := ⟨"LOW RISK", "#22c55e", "#dcfce7", "+"⟩

def mediumRiskConfig : RiskConfig := ⟨"MEDIUM RISK", "#f59e0b", "#fef3c7", "o"⟩

def highRiskConfig : RiskConfig := ⟨"HIGH RISK", "#ef4444", "#fee2e2", "!"⟩

def unknownRiskConfig : RiskConfig := ⟨"UNKNOWN", "#6b7280", "#f3f4f6", "?"⟩

def getRiskConfig (risk : String) : RiskConfig :=
  let riskLower := toLowerStr risk
  if riskLower = "low" then lowRiskConfig
  else if riskLower = "medium" then mediumRiskConfig
  else if riskLower = "high" then highRiskConfig
  else unknownRiskConfig

/-! ## RiskBadge (src/mobile/src/components/RiskBadge.tsx) -/

namespace RiskBadge

def getColor (riskLevel : String) : String :=
  let level := toLowerStr riskLevel
  if level = "high" ∨ level = "avoid" then "#dc3545"
  else if level = "medium" ∨ level = "caution" then "#fd7e14"
  else "#28a745"

def getLabel (riskLevel : String) : String :=
  let level := toLowerStr riskLevel
  if level = "high" then "HIGH RISK"
  else if level = "medium" then "MODERATE"
  else if level = "avoid" then "AVOID"
  else if level = "caution" then "CAUTION"
  else "SAFE"

end RiskBadge

/-! ## ProfileSelector (src/mobile/src/components/ProfileSelector.tsx)

`toggleAllergy` flips membership of one allergy in the preferences list:
`filter(a => a !== allergy)` when present, append when absent; only the
`allergies` field of the preferences is replaced. -/

structure UserPreferences where
  allergies : List String
  skinType : SkinType
  expertise : ExpertiseLevel
  theme : ThemeMode
deriving DecidableEq, Repr

def toggleAllergy (preferences : UserPreferences) (allergy : String) : UserPreferences :=
  let currentAllergies := preferences.allergies
  let newAllergies :=
    if currentAllergies.contains allergy then
      currentAllergies.filter (fun a => a != allergy)
    else
      currentAllergies ++ [allergy]
  { preferences with allergies := newAllergies }

/-! ## API service (src/mobile/src/services/api.ts)

`checkHealth` and `analyzeIngredients` wrap axios calls.  The outcome of
the HTTP request is passed in explicitly: for `checkHealth` an
`Option HealthData` (`none` = the request threw), for `analyzeIngredients`
an `Except AxiosFailure AnalysisResponse` distinguishing the three axios
error shapes the catch block inspects. -/

structure HealthData where
  status : Option String
deriving DecidableEq, Repr

def checkHealth : Option HealthData → Bool
  | some data => data.status == some "healthy"
  | none => false

inductive AxiosFailure where
  | withResponse (detail : Option String)
  | noResponse
  | setup (message : Option String)
deriving DecidableEq, Repr

/-- JS `x || d` on an optional string: falsy (`undefined` or `""`) falls
back to the default. -/
def jsOr : Option String → String → String
  | some s, d => if s = "" then d else s
  | none, d => d

/-- JS truthiness of an optional string. -/
def jsTruthy : Option String → Bool
  | some s => s != ""
  | none => false

def analyzeIngredients :
    Except AxiosFailure AnalysisResponse → Except String AnalysisResponse
  | Except.ok data => Except.ok data
  | Except.error (AxiosFailure.withResponse detail) =>
      Except.error (jsOr detail "Analysis failed")
  | Except.error AxiosFailure.noResponse =>
      Except.error "Cannot connect to server. Check your network connection."
  | Except.error (AxiosFailure.setup message) =>
      Except.error (jsOr message "Unknown error occurred")

/-! ## HomeScreen (src/mobile/src/screens/HomeScreen.tsx)

`handleAnalyze` guards on `!ingredients.trim()` and otherwise calls
`analyzeIngredients`, storing the result and switching to the results
screen on success, or alerting on failure.  The screen state is captured
in `HomeState`; the Boolean in the result records whether
`analyzeIngredients` was invoked. -/

/-- ASCII model of the whitespace class recognised by JS `trim` and the
regex class backslash-s. -/
def isWsChar (c : Char) : Bool :=
  c == ' ' || c == '\t' || c == '\n' || c == '\r' || c == '\x0b' || c == '\x0c'

/-- JS `String.prototype.trim`: strip leading and trailing whitespace. -/
def jsTrim (l : List Char) : List Char :=
  ((l.dropWhile isWsChar).reverse.dropWhile isWsChar).reverse

inductive Screen where
  | home | camera | profile | results
deriving DecidableEq, Repr

structure HomeState where
  productName : String
  ingredients : String
  profile : UserProfile
  analysisResult : Option AnalysisResponse
  currentScreen : Screen
  isAnalyzing : Bool
deriving Repr

def handleAnalyze (st : HomeState)
    (apiOutcome : Except AxiosFailure AnalysisResponse) : HomeState × Bool :=
  if jsTrim st.ingredients.toList = [] then
    (st, false)
  else
    match analyzeIngredients apiOutcome with
    | Except.ok result =>
        ({ st with analysisResult := some result,
                   currentScreen := Screen.results,
                   isAnalyzing := false }, true)
    | Except.error _ =>
        ({ st with isAnalyzing := false }, true)

/-! ## Report Synthesizer recommendation rule (backend) -/

inductive Recommendation where
  | SAFE | CAUTION | AVOID
deriving DecidableEq, Repr

/-- Modelled from the spec: the Report Synthesizer of the backend analysis
pipeline is not under src/ (only the mobile client and its tests are).
Per-ingredient recommendation rule of section 4.3: AVOID is forced whenever
an allergen flag is present, independent of safety score; otherwise SAFE if
the score is at least 7, CAUTION if 4 to 6, AVOID if at most 3. -/
def recommendationFor (isAllergenMatch : Bool) (safety_score : ℤ) : Recommendation :=
  if isAllergenMatch then Recommendation.AVOID
  else if 7 ≤ safety_score then Recommendation.SAFE
  else if 4 ≤ safety_score then Recommendation.CAUTION
  else Recommendation.AVOID

structure SynthesizedRecord where
  name : String
  safety_score : ℤ
  is_allergen_match : Bool
  recommendation : Recommendation
deriving DecidableEq, Repr

/-- Modelled from the spec: the synthesizer attaches to every resolved
ingredient (name, safety score, allergen flag) the recommendation of
`recommendationFor`; the backend synthesizer code is not under src/. -/
def synthesizeRecords (inputs : List (String × ℤ × Bool)) : List SynthesizedRecord :=
  inputs.map (fun i => ⟨i.1, i.2.1, i.2.2, recommendationFor i.2.2 i.2.1⟩)

/-! ## Workflow Orchestrator state machine (backend) -/

structure OrchReport where
  summary : String
  validated : Bool
deriving DecidableEq, Repr

inductive OrchPhase where
  | resolving | synthesizing | critiquing | done
deriving DecidableEq, Repr

structure OrchState where
  phase : OrchPhase
  retry_count : ℕ
  report : Option OrchReport
deriving DecidableEq, Repr

inductive OrchEvent where
  | resolved
  | synthesized (r : OrchReport)
  | verdict (pass : Bool)
deriving DecidableEq, Repr

def maxRetries : ℕ := 2

/-- Modelled from the spec: the Workflow Orchestrator of the backend is not
under src/.  Section 4.5 state machine, written as the explicit transition
function of section 9 over (state, event): RESOLVING moves to SYNTHESIZING
once resolution finishes, SYNTHESIZING to CRITIQUING with the draft
attached, a passing verdict terminates validated, a failing verdict loops
back to SYNTHESIZING incrementing retry_count while below maxRetries, and
otherwise terminates with the last-generated report flagged unvalidated. -/
def orchStep (s : OrchState) (e : OrchEvent) : OrchState :=
  match s.phase, e with
  | OrchPhase.resolving, OrchEvent.resolved => { s with phase := OrchPhase.synthesizing }
  | OrchPhase.synthesizing, OrchEvent.synthesized r =>
      { s with phase := OrchPhase.critiquing, report := some r }
  | OrchPhase.critiquing, OrchEvent.verdict true =>
      { s with phase := OrchPhase.done,
               report := s.report.map (fun r => { r with validated := true }) }
  | OrchPhase.critiquing, OrchEvent.verdict false =>
      if s.retry_count < maxRetries then
        { s with phase := OrchPhase.synthesizing, retry_count := s.retry_count + 1 }
      else
        { s with phase := OrchPhase.done,
                 report := s.report.map (fun r => { r with validated := false }) }
  | _, _ => s

def orchInit : OrchState := ⟨OrchPhase.resolving, 0, none⟩

inductive OrchReachable : OrchState → Prop where
  | init : OrchReachable orchInit
  | step (s : OrchState) (e : OrchEvent) :
      OrchReachable s → OrchReachable (orchStep s e)

/-! ## OCR ingredient extraction (src/mobile/src/services/ocr.ts)

`extractIngredients` cleans the raw OCR text: collapse whitespace runs to
single spaces, strip `ingredients?:` and `contains?:` label prefixes
(global, case-insensitive), turn pipes into the letter l, trim, then keep
the first comma-separated run matching the the ingredient-list pattern when
one exists.  The network OCR call is abstracted as the `rawText` argument;
regex replacement is embedded as a left-to-right scan with fuel bounded by
the list length (each successful match consumes at least one character, so
the fuel is never exhausted). -/

def collapseWs : List Char → List Char
  | [] => []
  | [c] => if isWsChar c then [' '] else [c]
  | c₁ :: c₂ :: rest =>
    if isWsChar c₁ && isWsChar c₂ then collapseWs (c₂ :: rest)
    else if isWsChar c₁ then ' ' :: collapseWs (c₂ :: rest)
    else c₁ :: collapseWs (c₂ :: rest)

/-- Case-insensitive match of a lowercase pattern word as a prefix;
returns the rest of the string. -/
def matchCI : List Char → List Char → Option (List Char)
  | [], l => some l
  | _ :: _, [] => none
  | p :: ps, c :: cs => if c.toLower == p then matchCI ps cs else none

/-- One match of the label regex `word s? ws* colon? ws*` at the head of
the list (greedy, as the JS regex engine resolves it); returns the suffix
after the match. -/
def matchLabel (word : List Char) (l : List Char) : Option (List Char) :=
  match matchCI word l with
  | none => none
  | some r =>
    let r1 := match r with
      | c :: t => if c.toLower == 's' then t else c :: t
      | [] => []
    let r2 := r1.dropWhile isWsChar
    let r3 := match r2 with
      | ':' :: t => t
      | other => other
    some (r3.dropWhile isWsChar)

/-- JS `String.prototype.replace` with a global label regex and empty
replacement: scan left to right, deleting each match. -/
def replaceLabel (word : List Char) : ℕ → List Char → List Char
  | _, [] => []
  | 0, l => l
  | fuel + 1, c :: rest =>
    match matchLabel word (c :: rest) with
    | some r => replaceLabel word fuel r
    | none => c :: replaceLabel word fuel rest

def ingredientWord : List Char := "ingredient".toList

def containWord : List Char := "contain".toList

/-- `.replace(backslash-pipe global, lowercase l)`: every pipe becomes the
letter l. -/
def replacePipe (l : List Char) : List Char :=
  l.map (fun c => if c == '|' then 'l' else c)

def isLetterChar (c : Char) : Bool :=
  ('a' ≤ c && c ≤ 'z') || ('A' ≤ c && c ≤ 'Z')

def isDigitChar (c : Char) : Bool :=
  '0' ≤ c && c ≤ '9'

/-- The character class of the ingredient-list pattern body:
letters, digits, whitespace, hyphen, slash, parentheses. -/
def isBodyChar (c : Char) : Bool :=
  isLetterChar c || isDigitChar c || isWsChar c ||
    c == '-' || c == '/' || c == '(' || c == ')'

/-- The repetitions `(comma ws* letter body+)` of the ingredient-list
pattern, greedy: returns the consumed prefix and the repetition count.
The body class has no comma, so the JS backtracking engine resolves this
pattern deterministically. -/
def matchReps : ℕ → List Char → List Char × ℕ
  | 0, _ => ([], 0)
  | fuel + 1, l =>
    match l with
    | ',' :: rest =>
      let ws := rest.takeWhile isWsChar
      let rest2 := rest.dropWhile isWsChar
      match rest2 with
      | d :: rest3 =>
        if isLetterChar d then
          let body := rest3.takeWhile isBodyChar
          let rest4 := rest3.dropWhile isBodyChar
          if body.isEmpty then ([], 0)
          else
            let m := matchReps fuel rest4
            (',' :: (ws ++ d :: (body ++ m.1)), m.2 + 1)
        else ([], 0)
      | [] => ([], 0)
    | _ => ([], 0)

/-- One attempt of the ingredient-list pattern
`letter body+ (comma ws* letter body+){2,}` anchored at the head;
returns the matched prefix when at least two repetitions follow. -/
def matchGroup (l : List Char) : Option (List Char) :=
  match l with
  | [] => none
  | c :: rest =>
    if isLetterChar c then
      let body := rest.takeWhile isBodyChar
      let rest2 := rest.dropWhile isBodyChar
      if body.isEmpty then none
      else
        let m := matchReps rest2.length rest2
        if 2 ≤ m.2 then some (c :: (body ++ m.1)) else none
    else none

/-- Leftmost match of the ingredient-list pattern. -/
def findGroup : List Char → Option (List Char)
  | [] => none
  | c :: rest =>
    match matchGroup (c :: rest) with
    | some m => some m
    | none => findGroup rest

def extractIngredients (rawText : List Char) : List Char :=
  if rawText.isEmpty then []
  else
    let s1 := collapseWs rawText
    let s2 := replaceLabel ingredientWord s1.length s1
    let s3 := replaceLabel containWord s2.length s2
    let cleaned := jsTrim (replacePipe s3)
    match findGroup cleaned with
    | some m => m
    | none => cleaned

def lowerList (l : List Char) : List Char := l.map Char.toLower

/-- Whether `needle` occurs as a contiguous run inside `hay`. -/
def hasInfix (needle : List Char) : List Char → Bool
  | [] => needle.isEmpty
  | c :: rest => needle.isPrefixOf (c :: rest) || hasInfix needle rest

/-- Case-insensitive substring test. -/
def containsCI (needle hay : List Char) : Bool :=
  hasInfix (lowerList needle) (lowerList hay)

/-! ## Theorems -/

/-- C6: For every integer safety score from 1 to 10, the fill colour of
SafetyBar partitions scores exactly as the derived risk level of the spec:
red exactly when the score is at most 3 (high), orange exactly when it is
between 4 and 6 (medium), and green exactly when it is at least 7 (low). -/
theorem safetyBar_color_partition (s : ℤ) (h1 : 1 ≤ s) (h2 : s ≤ 10) :
    (SafetyBar.getColor s = "#dc3545" ↔ s ≤ 3) ∧
    (SafetyBar.getColor s = "#fd7e14" ↔ (4 ≤ s ∧ s ≤ 6)) ∧
    (SafetyBar.getColor s = "#28a745" ↔ 7 ≤ s) := by
  interval_cases s <;> decide

theorem safetyBar_color_partition_witness :
    SafetyBar.getColor 5 = "#fd7e14" :=
  ((safetyBar_color_partition 5 (by decide) (by decide)).2.1).mpr (by decide)

/-- C7: getRiskConfig is total and case-insensitive over the section 6
overall risk contract: it returns the LOW RISK, MEDIUM RISK and HIGH RISK
configurations exactly when the lowercased input is low, medium and high
respectively, and the UNKNOWN configuration for every other string,
including the string unknown itself. -/
theorem getRiskConfig_total_case_insensitive (risk : String) :
    (getRiskConfig risk = lowRiskConfig ↔ toLowerStr risk = "low") ∧
    (getRiskConfig risk = mediumRiskConfig ↔ toLowerStr risk = "medium") ∧
    (getRiskConfig risk = highRiskConfig ↔ toLowerStr risk = "high") ∧
    (toLowerStr risk ≠ "low" → toLowerStr risk ≠ "medium" → toLowerStr risk ≠ "high" →
      getRiskConfig risk = unknownRiskConfig) ∧
    getRiskConfig "unknown" = unknownRiskConfig := by
  refine ⟨?_, ?_, ?_, ?_, by decide⟩
  · unfold getRiskConfig; dsimp only; split_ifs <;> simp_all <;> decide
  · unfold getRiskConfig; dsimp only; split_ifs <;> simp_all <;> decide
  · unfold getRiskConfig; dsimp only; split_ifs <;> simp_all <;> decide
  · intro h1 h2 h3
    unfold getRiskConfig; dsimp only; split_ifs <;> simp_all

/-- C8: for every risk string whose lowercase form is none of high,
medium, avoid, caution, the RiskBadge renders the green colour and the
label SAFE: an unrecognized or unknown risk level displays as safe. -/
theorem riskBadge_unrecognized_is_safe (risk : String)
    (h1 : toLowerStr risk ≠ "high") (h2 : toLowerStr risk ≠ "medium")
    (h3 : toLowerStr risk ≠ "avoid") (h4 : toLowerStr risk ≠ "caution") :
    RiskBadge.getColor risk = "#28a745" ∧ RiskBadge.getLabel risk = "SAFE" := by
  unfold RiskBadge.getColor RiskBadge.getLabel
  dsimp only
  split_ifs <;> simp_all

theorem riskBadge_unrecognized_is_safe_witness :
    RiskBadge.getColor "unknown" = "#28a745" ∧
      RiskBadge.getLabel "unknown" = "SAFE" :=
  riskBadge_unrecognized_is_safe "unknown"
    (by decide) (by decide) (by decide) (by decide)

/-- C9: on a duplicate-free allergies list, toggleAllergy removes the
allergy when present and appends it at the end when absent; toggling twice
returns a permutation of the original list, and no preference field other
than allergies changes. -/
theorem toggleAllergy_spec (p : UserPreferences) (x : String)
    (hnd : p.allergies.Nodup) :
    (x ∈ p.allergies → (toggleAllergy p x).allergies = p.allergies.erase x) ∧
    (x ∉ p.allergies → (toggleAllergy p x).allergies = p.allergies ++ [x]) ∧
    ((toggleAllergy (toggleAllergy p x) x).allergies).Perm p.allergies ∧
    (toggleAllergy p x).skinType = p.skinType ∧
    (toggleAllergy p x).expertise = p.expertise ∧
    (toggleAllergy p x).theme = p.theme := by
  have key : ∀ (q : UserPreferences) (y : String),
      (toggleAllergy q y).allergies =
        if q.allergies.contains y then q.allergies.filter (fun a => a != y)
        else q.allergies ++ [y] := fun q y => rfl
  have hcont : ∀ (l : List String), l.contains x = true ↔ x ∈ l := by
    intro l; exact List.elem_iff
  have hcontf : ∀ (l : List String), x ∉ l → l.contains x = false := by
    intro l hl
    cases h : l.contains x
    · rfl
    · exact absurd ((hcont l).mp h) hl
  refine ⟨?_, ?_, ?_, rfl, rfl, rfl⟩
  · intro hx
    rw [key, if_pos ((hcont p.allergies).mpr hx)]
    exact (hnd.erase_eq_filter x).symm
  · intro hx
    rw [key, hcontf p.allergies hx]
    simp
  · by_cases hx : x ∈ p.allergies
    · have h1 : (toggleAllergy p x).allergies = p.allergies.filter (fun a => a != x) := by
        rw [key, if_pos ((hcont p.allergies).mpr hx)]
      have hxout : x ∉ (toggleAllergy p x).allergies := by
        rw [h1]
        intro hc
        have hxx := (List.mem_filter.mp hc).2
        simp at hxx
      have h2 : (toggleAllergy (toggleAllergy p x) x).allergies =
          (toggleAllergy p x).allergies ++ [x] := by
        rw [key, hcontf _ hxout]
        simp
      rw [h2, h1, ← hnd.erase_eq_filter x]
      exact (List.perm_append_singleton x _).trans (List.perm_cons_erase hx).symm
    · have h1 : (toggleAllergy p x).allergies = p.allergies ++ [x] := by
        rw [key, hcontf p.allergies hx]
        simp
      have hin : ((toggleAllergy p x).allergies).contains x = true := by
        rw [h1]
        exact (hcont _).mpr (List.mem_append_right p.allergies (by simp))
      have h2 : (toggleAllergy (toggleAllergy p x) x).allergies =
          (p.allergies ++ [x]).filter (fun a => a != x) := by
        rw [key, if_pos hin, h1]
      have hfl : p.allergies.filter (fun a => a != x) = p.allergies :=
        List.filter_eq_self.mpr (fun a ha => by
          simp only [bne_iff_ne]
          exact fun h => hx (h ▸ ha))
      rw [h2, List.filter_append, hfl]
      simp

theorem toggleAllergy_spec_witness :
    (toggleAllergy ⟨["Fragrance", "Nuts"], SkinType.normal,
        ExpertiseLevel.beginner, ThemeMode.light⟩ "Fragrance").allergies =
      (["Fragrance", "Nuts"] : List String).erase "Fragrance" :=
  (toggleAllergy_spec ⟨["Fragrance", "Nuts"], SkinType.normal,
      ExpertiseLevel.beginner, ThemeMode.light⟩ "Fragrance"
    (by decide)).1 (by decide)

/-- C5: checkHealth returns true exactly when the GET health request
succeeds and the status field of the response body equals healthy; when
the request throws it returns false, and the function is total (never
throws). -/
theorem checkHealth_spec (r : Option HealthData) :
    (checkHealth r = true ↔ ∃ d, r = some d ∧ d.status = some "healthy") ∧
    checkHealth none = false := by
  refine ⟨?_, rfl⟩
  cases r with
  | none => simp [checkHealth]
  | some d => simp [checkHealth]

/-- C1: every ingredient record of the synthesized analysis whose allergen
flag is set carries the recommendation AVOID, regardless of its safety
score (spec-modelled: the backend synthesizer is not under src/). -/
theorem synthesize_allergen_forces_avoid
    (inputs : List (String × ℤ × Bool)) (r : SynthesizedRecord)
    (hr : r ∈ synthesizeRecords inputs) (hm : r.is_allergen_match = true) :
    r.recommendation = Recommendation.AVOID := by
  rcases List.mem_map.mp hr with ⟨i, _, rfl⟩
  simp only [recommendationFor] at *
  rw [hm]
  simp

theorem synthesize_allergen_forces_avoid_witness :
    (⟨"Fragrance", 9, true, Recommendation.AVOID⟩ : SynthesizedRecord).recommendation =
      Recommendation.AVOID :=
  synthesize_allergen_forces_avoid [("Fragrance", 9, true)]
    ⟨"Fragrance", 9, true, Recommendation.AVOID⟩ (by decide) (by decide)

/-- C2: in every reachable state of the orchestrator state machine the
retry count never exceeds 2, and a failing critic verdict arriving when
the retry count equals the maximum terminates the machine in the done
phase carrying the last-generated report flagged unvalidated, rather than
dropping it or failing (spec-modelled: the backend orchestrator is not
under src/; the transition function is total, so no error outcome
exists). -/
theorem orchestrator_retry_bound_and_exhaustion :
    (∀ s : OrchState, OrchReachable s → s.retry_count ≤ maxRetries) ∧
    (∀ (s : OrchState) (r : OrchReport), OrchReachable s →
      s.phase = OrchPhase.critiquing → s.retry_count = maxRetries →
      s.report = some r →
      orchStep s (OrchEvent.verdict false) =
        { s with phase := OrchPhase.done,
                 report := some { r with validated := false } }) := by
  constructor
  · intro s hs
    induction hs with
    | init => exact Nat.zero_le _
    | step s e _ ih =>
      rcases s with ⟨phase, rc, rep⟩
      cases phase with
      | resolving => cases e <;> simpa [orchStep] using ih
      | synthesizing => cases e <;> simpa [orchStep] using ih
      | critiquing =>
        cases e with
        | resolved => simpa [orchStep] using ih
        | synthesized r => simpa [orchStep] using ih
        | verdict pass =>
          cases pass with
          | true => simpa [orchStep] using ih
          | false =>
            simp only [orchStep]
            split
            · rename_i hlt
              simp only [maxRetries] at hlt ⊢
              omega
            · simpa using ih
      | done => cases e <;> simpa [orchStep] using ih
  · intro s r _ hphase hrc hrep
    rcases s with ⟨phase, rc, rep⟩
    simp only at hphase hrc hrep
    subst hphase
    subst hrc
    subst hrep
    simp [orchStep, maxRetries]

/-- C3: when the ingredients text is empty or whitespace-only,
handleAnalyze rejects before the pipeline: analyzeIngredients is not
invoked (the Boolean of the result is false) and the whole screen state —
in particular the analysis result and the current screen — is returned
unchanged. -/
theorem handleAnalyze_blank_input_no_call (st : HomeState)
    (api : Except AxiosFailure AnalysisResponse)
    (hws : ∀ c ∈ st.ingredients.toList, isWsChar c = true) :
    handleAnalyze st api = (st, false) := by
  have hdrop : st.ingredients.toList.dropWhile isWsChar = [] :=
    List.dropWhile_eq_nil_iff.mpr hws
  unfold handleAnalyze
  rw [if_pos]
  unfold jsTrim
  rw [hdrop]
  simp

theorem handleAnalyze_blank_input_no_call_witness :
    handleAnalyze
        ⟨"", "  \t ", ⟨[], SkinType.normal, ExpertiseLevel.beginner⟩,
          none, Screen.home, false⟩
        (Except.error AxiosFailure.noResponse) =
      (⟨"", "  \t ", ⟨[], SkinType.normal, ExpertiseLevel.beginner⟩,
          none, Screen.home, false⟩, false) :=
  handleAnalyze_blank_input_no_call _ _ (by decide)

/-- C4 counterexample: when the request fails during setup with an
underlying error whose message is the empty string, the thrown message is
the fallback Unknown error occurred, not the underlying (empty) message,
refuting the claim that the underlying message is always propagated in
that branch. -/
theorem analyzeIngredients_empty_setup_message_cex :
    analyzeIngredients (Except.error (AxiosFailure.setup (some ""))) =
      Except.error "Unknown error occurred" ∧
    (("Unknown error occurred" : String) == "") = false :=
  ⟨rfl, rfl⟩

/-- C4 (amended): analyzeIngredients returns any received response body
unchanged (including bodies with success false); on every failure it
throws an Error with a non-empty message — the detail field of the server
error response when truthy and Analysis failed otherwise, the fixed
cannot-connect message when no response arrived, and the underlying error
message in the remaining case when that message is non-empty, with
Unknown error occurred as its fallback — so the caller never receives a
partially-filled structure. -/
theorem analyzeIngredients_spec (r : Except AxiosFailure AnalysisResponse) :
    (∀ d, r = Except.ok d → analyzeIngredients r = Except.ok d) ∧
    (∀ e, r = Except.error e → ∃ m : String,
      analyzeIngredients r = Except.error m ∧ m ≠ "" ∧
      (match e with
       | AxiosFailure.withResponse detail =>
           (jsTruthy detail = true → some m = detail) ∧
           (jsTruthy detail = false → m = "Analysis failed")
       | AxiosFailure.noResponse =>
           m = "Cannot connect to server. Check your network connection."
       | AxiosFailure.setup message =>
           (jsTruthy message = true → some m = message) ∧
           (jsTruthy message = false → m = "Unknown error occurred"))) := by
  constructor
  · intro d hd
    subst hd
    rfl
  · intro e he
    subst he
    cases e with
    | withResponse detail =>
      cases detail with
      | none =>
          exact ⟨"Analysis failed", rfl, by decide,
            fun h => by simp [jsTruthy] at h, fun _ => rfl⟩
      | some s =>
          by_cases hs : s = ""
          · subst hs
            exact ⟨"Analysis failed", rfl, by decide,
              fun h => by simp [jsTruthy] at h, fun _ => rfl⟩
          · refine ⟨s, ?_, hs, fun _ => rfl, fun h => ?_⟩
            · simp [analyzeIngredients, jsOr, hs]
            · simp [jsTruthy, hs] at h
    | noResponse =>
        exact ⟨"Cannot connect to server. Check your network connection.",
          rfl, by decide, rfl⟩
    | setup message =>
      cases message with
      | none =>
          exact ⟨"Unknown error occurred", rfl, by decide,
            fun h => by simp [jsTruthy] at h, fun _ => rfl⟩
      | some s =>
          by_cases hs : s = ""
          · subst hs
            exact ⟨"Unknown error occurred", rfl, by decide,
              fun h => by simp [jsTruthy] at h, fun _ => rfl⟩
          · refine ⟨s, ?_, hs, fun _ => rfl, fun h => ?_⟩
            · simp [analyzeIngredients, jsOr, hs]
            · simp [jsTruthy, hs] at h

/-! ### Helper lemmas for the OCR extraction pipeline -/

theorem replacePipe_no_pipe (l : List Char) : ∀ c ∈ replacePipe l, c ≠ '|' := by
  intro c hc
  rcases List.mem_map.mp hc with ⟨a, _, rfl⟩
  split
  · decide
  · rename_i h
    intro hEq
    cases hEq
    exact h rfl

theorem mem_of_mem_jsTrim {c : Char} {l : List Char} (h : c ∈ jsTrim l) : c ∈ l := by
  unfold jsTrim at h
  rw [List.mem_reverse] at h
  have h2 := List.Sublist.mem h (List.dropWhile_sublist isWsChar)
  rw [List.mem_reverse] at h2
  exact List.Sublist.mem h2 (List.dropWhile_sublist isWsChar)

theorem matchReps_consumed : ∀ (fuel : ℕ) (l : List Char), (matchReps fuel l).1 <+: l := by
  intro fuel
  induction fuel with
  | zero => intro l; simp [matchReps]
  | succ fuel ih =>
    intro l
    unfold matchReps
    split
    · rename_i rest
      dsimp only
      split
      · rename_i d rest3 heq
        split_ifs with hd hbody
        · simp
        · dsimp only
          obtain ⟨t, ht⟩ := ih (rest3.dropWhile isBodyChar)
          refine ⟨t, ?_⟩
          have h1 : rest.takeWhile isWsChar ++ (d :: rest3) = rest := by
            rw [← heq]
            exact List.takeWhile_append_dropWhile _ _
          have h2 : rest3.takeWhile isBodyChar ++ rest3.dropWhile isBodyChar = rest3 :=
            List.takeWhile_append_dropWhile _ _
          simp only [List.cons_append, List.append_assoc, List.cons.injEq, true_and]
          rw [ht, h2, h1]
        · simp
      · simp
    · simp

theorem matchGroup_consumed {l m : List Char} (h : matchGroup l = some m) : m <+: l := by
  unfold matchGroup at h
  cases l with
  | nil => simp at h
  | cons c rest =>
    dsimp only at h
    split_ifs at h with hc hbody hreps
    cases h
    obtain ⟨t, ht⟩ := matchReps_consumed (rest.dropWhile isBodyChar).length
      (rest.dropWhile isBodyChar)
    refine ⟨t, ?_⟩
    simp only [List.cons_append, List.append_assoc, List.cons.injEq, true_and]
    rw [ht]
    exact List.takeWhile_append_dropWhile _ _

theorem findGroup_mem : ∀ {l m : List Char}, findGroup l = some m →
    ∀ c ∈ m, c ∈ l := by
  intro l
  induction l with
  | nil => intro m h; simp [findGroup] at h
  | cons a rest ih =>
    intro m h c hc
    unfold findGroup at h
    revert h
    cases hmg : matchGroup (a :: rest) with
    | some m' =>
      intro h
      cases h
      exact List.IsPrefix.mem hc (matchGroup_consumed hmg)
    | none =>
      intro h
      exact List.mem_cons_of_mem a (ih h c hc)

theorem cleaned_no_pipe (X : List Char) : ∀ c ∈ jsTrim (replacePipe X), c ≠ '|' :=
  fun c hc => replacePipe_no_pipe X c (mem_of_mem_jsTrim hc)

theorem result_no_pipe (X : List Char) :
    ∀ c ∈ (match findGroup (jsTrim (replacePipe X)) with
           | some m => m
           | none => jsTrim (replacePipe X)), c ≠ '|' := by
  intro c hc
  revert hc
  cases hfind : findGroup (jsTrim (replacePipe X)) with
  | some m =>
    intro hc
    exact cleaned_no_pipe X c (findGroup_mem hfind c hc)
  | none =>
    intro hc
    exact cleaned_no_pipe X c hc

/-- C10 counterexample: on the OCR text ingredingredientient, the single
global pass removing the label prefix regex deletes the inner occurrence
of the word ingredient and splices the remaining halves into a new
occurrence, so the returned string still contains ingredient
case-insensitively, refuting the claim. -/
theorem extractIngredients_contains_ingredient_cex :
    containsCI ("ingredient".toList)
      (extractIngredients ("ingredingredientient".toList)) = true := by
  decide

/-- C10 (amended): for every OCR text input, the string returned by
extractIngredients contains no pipe character (the pipe-to-l replacement
runs after the label removals and everything after it only selects a
substring); the claim that the result never contains the substring
ingredient does not hold, since one global pass of label removal can
splice a new occurrence together. -/
theorem extractIngredients_no_pipe (raw : List Char) :
    ((extractIngredients raw).contains '|') = false := by
  have main : ∀ c ∈ extractIngredients raw, c ≠ '|' := by
    intro c hc
    unfold extractIngredients at hc
    split_ifs at hc with h
    · simp at hc
    · dsimp only at hc
      exact result_no_pipe _ c hc
  cases h : (extractIngredients raw).contains '|' with
  | false => rfl
  | true => exact absurd rfl (main '|' (List.elem_iff.mp h))

end AiIngredientScanner
